import Mathlib

/-!
Shallow embedding of the console-input command-history state machine from
packages/components/src/spectrum (ConsoleInput), together with the
useClient and useFilterConditionFactories hooks, and theorems checking the
specification's claims against these definitions.
-/

namespace WebClientUI

/-- BUFFER_SIZE constant from ConsoleInput: page size of the history viewport. -/
def BUFFER_SIZE : Nat := 100

/-- The in-flight cancelable promise held in the loadingPromise field.
During one run of loadMoreHistory it is first the getTable fetch
(whose cancel cleanup closes the resolved table) and then the
getViewportData fetch (whose cancel cleanup closes the table).
The Bool records whether cancel() has been called on it. -/
inductive LoadingPromise where
  | tableFetch (cancelled : Bool)
  | dataFetch (cancelled : Bool)
deriving DecidableEq, Repr

/-- Whether cancel() has been called on the promise. -/
def promiseCancelled : LoadingPromise → Bool
  | .tableFetch c => c
  | .dataFetch c => c

/-- The modifiedCommands JS Map: keys are history indices or null (the fresh
command), values are the stored in-progress text (the code stores
value or null). Represented as an association list in insertion order. -/
abbrev ModMap := List (Option Nat × Option String)

/-- JS Map.get: the stored value when the key is present, otherwise undefined
(outer none). -/
def mapGet (m : ModMap) (k : Option Nat) : Option (Option String) :=
  (m.find? (fun p => p.1 == k)).map Prod.snd

/-- JS Map.set: update the entry in place when the key is present, otherwise
append a new entry. -/
def mapSet (m : ModMap) (k : Option Nat) (v : Option String) : ModMap :=
  if m.any (fun p => p.1 == k) then
    m.map (fun p => if p.1 == k then (k, v) else p)
  else m ++ [(k, v)]

/-- The mutable fields of the ConsoleInput component that the command-history
logic reads and writes. editorValue stands for the monaco model text.
tableOpen is a ghost field tracking whether the command-history table
handle obtained by the in-flight loadMoreHistory run is currently open
(the component keeps it in a local variable, not a field). -/
structure ConsoleState where
  commandHistoryIndex : Option Nat
  history : List String
  modifiedCommands : ModMap
  editorValue : String
  bufferIndex : Option Nat
  loadingPromise : Option LoadingPromise
  tableOpen : Bool
deriving DecidableEq, Repr

/-- State right after the constructor runs. -/
def initialState : ConsoleState :=
  { commandHistoryIndex := none
    history := []
    modifiedCommands := []
    editorValue := ""
    bufferIndex := some 0
    loadingPromise := none
    tableOpen := false }

/-- Synchronous prefix of loadMoreHistory: the early return when a fetch is
already in flight or the full history is loaded, otherwise the getTable
fetch is started and stored in loadingPromise. -/
def loadMoreHistoryStart (st : ConsoleState) : ConsoleState :=
  if st.loadingPromise ≠ none ∨ st.bufferIndex = none then st
  else { st with loadingPromise := some (.tableFetch false) }

/-- loadCommand from ConsoleInput. Returns the new state and whether the
loadMoreHistory backfill call was made. The guard comparing the index
with history.length - BUFFER_SIZE is JS number arithmetic, hence Int.
The expression modifiedValue ?? historyValue falls through to the
history entry both when the key is absent (undefined) and when the
stored value is null. -/
def loadCommand (st : ConsoleState) (index : Option Nat) : ConsoleState × Bool :=
  match index with
  | some i =>
    if st.history.length ≤ i then (st, false)
    else
      let value :=
        match mapGet st.modifiedCommands (some i) with
        | some (some s) => s
        | _ => st.history.getD (st.history.length - i - 1) ""
      let st' := { st with commandHistoryIndex := some i, editorValue := value }
      if (i : Int) > (st.history.length : Int) - (BUFFER_SIZE : Int) then
        (loadMoreHistoryStart st', true)
      else (st', false)
  | none =>
    let value :=
      match mapGet st.modifiedCommands none with
      | some (some s) => s
      | _ => ""
    ({ st with commandHistoryIndex := none, editorValue := value }, false)

/-- processCommand from ConsoleInput: resets the history index and the
modified-commands map, then appends the command to history unless it is
empty or equal to the current last entry. -/
def processCommand (st : ConsoleState) (command : String) : ConsoleState :=
  let st' := { st with commandHistoryIndex := none, modifiedCommands := [] }
  if command ≠ "" ∧ (st'.history = [] ∨ some command ≠ st'.history.getLast?) then
    { st' with history := st'.history ++ [command] }
  else st'

/-- The onDidChangeModelContent subscription: records the current editor text
in modifiedCommands under the current history index. -/
def onDidChangeModelContent (st : ConsoleState) (value : String) : ConsoleState :=
  { st with modifiedCommands := mapSet st.modifiedCommands st.commandHistoryIndex (some value) }

/-- Fields of a monaco keydown event that the onKeyDown handler inspects. -/
structure KeyEvent where
  code : String
  isEnterKeyCode : Bool
  altKey : Bool
  shiftKey : Bool
  metaKey : Bool
  ctrlKey : Bool
deriving DecidableEq, Repr

/-- Editor-side facts the onKeyDown handler queries: the cursor line, the
model line count and whether the suggestion menu is populated. -/
structure EditorView where
  lineNumber : Nat
  lineCount : Nat
  suggestionMenuPopulated : Bool
deriving DecidableEq, Repr

/-- Observable action taken by the onKeyDown handler. -/
inductive KeyEffect where
  | none
  | loadedCommand (index : Option Nat)
  | submitted (command : String)
deriving DecidableEq, Repr

/-- The onKeyDown handler registered in initCommandEditor: ArrowUp on line 1
and ArrowDown on the last line remap to loadCommand when no alt, shift or
meta modifier is held and the suggestion menu is not populated; the Enter
key submits the trimmed editor value through processCommand and clears
the editor. -/
def onKeyDown (st : ConsoleState) (ev : KeyEvent) (view : EditorView) :
    ConsoleState × KeyEffect :=
  if ¬ev.altKey ∧ ¬ev.shiftKey ∧ ¬ev.metaKey then
    if ev.code = "ArrowUp" ∧ ¬view.suggestionMenuPopulated ∧ view.lineNumber = 1 then
      let target : Option Nat :=
        match st.commandHistoryIndex with
        | some i => some (i + 1)
        | none => some 0
      ((loadCommand st target).1, .loadedCommand target)
    else if ev.code = "ArrowDown" ∧ ¬view.suggestionMenuPopulated ∧
        view.lineNumber = view.lineCount then
      let target : Option Nat :=
        match st.commandHistoryIndex with
        | some i => if 0 < i then some (i - 1) else none
        | none => none
      ((loadCommand st target).1, .loadedCommand target)
    else if ev.isEnterKeyCode ∧ ¬view.suggestionMenuPopulated then
      let command := st.editorValue.trim
      let st' := processCommand st command
      ({ st' with editorValue := "" }, .submitted command)
    else (st, .none)
  else (st, .none)

/-- componentWillUnmount: if a fetch is in flight, cancel it. -/
def componentWillUnmount (st : ConsoleState) : ConsoleState :=
  match st.loadingPromise with
  | Option.none => st
  | some (.tableFetch _) => { st with loadingPromise := some (.tableFetch true) }
  | some (.dataFetch _) => { st with loadingPromise := some (.dataFetch true) }

/-- Body of the JS array filter in loadMoreHistory below an already-seen
first element: an item is kept exactly when its name differs from the
previous item of the original page. -/
def filterAdjacentDupsAux (prev : String) : List String → List String
  | [] => []
  | y :: ys =>
    if y = prev then filterAdjacentDupsAux y ys
    else y :: filterAdjacentDupsAux y ys

/-- The filter in loadMoreHistory over a fetched page of command names:
keeps an item when it is first or differs from the previous item of the
original array. -/
def filterAdjacentDups (l : List String) : List String :=
  match l with
  | [] => []
  | x :: xs => x :: filterAdjacentDupsAux x xs

/-- The getTable promise settles. If the promise was cancelled, the cancel
cleanup closes the resolved table and the awaiting code lands in the
catch with a cancellation, which clears loadingPromise silently.
Otherwise the run continues: the table is reversed, the viewport is set,
and the getViewportData fetch becomes the loadingPromise. -/
def resolveTable (st : ConsoleState) : ConsoleState :=
  match st.loadingPromise with
  | some (.tableFetch true) => { st with loadingPromise := none, tableOpen := false }
  | some (.tableFetch false) =>
    { st with loadingPromise := some (.dataFetch false), tableOpen := true }
  | _ => st

/-- The getViewportData promise settles with a page of command names and the
table size. If the promise was cancelled, the cancel cleanup closes the
table and the catch clears loadingPromise silently. Otherwise
bufferIndex advances by BUFFER_SIZE (null once the full history is
loaded), the page is de-duplicated, reversed and prepended to history,
loadingPromise is cleared and the table is closed. -/
def resolveData (st : ConsoleState) (items : List String) (tableSize : Nat) :
    ConsoleState :=
  match st.loadingPromise with
  | some (.dataFetch true) => { st with loadingPromise := none, tableOpen := false }
  | some (.dataFetch false) =>
    let b := st.bufferIndex.getD 0 + BUFFER_SIZE
    { st with
        bufferIndex := if tableSize ≤ b then none else some b
        history := (filterAdjacentDups items).reverse ++ st.history
        loadingPromise := none
        tableOpen := false }
  | _ => st

/-- The catch block of loadMoreHistory: in every branch loadingPromise is
reset to undefined; a cancellation returns silently, any other error is
logged. Returns the new state and whether the error was logged. The
method never rethrows. -/
def loadMoreHistoryCatch (st : ConsoleState) (isCanceled : Bool) :
    ConsoleState × Bool :=
  let st' := { st with loadingPromise := none }
  if isCanceled then (st', false) else (st', true)

/-- Modelled from the spec: removeNullAndUndefined, from the repository's
utils package (its source is not under src/), returns its arguments with
every null and undefined entry removed, order preserved. -/
def removeNullAndUndefined {α : Type} (xs : List (Option α)) : List α :=
  xs.filterMap id

/-- useFilterConditionFactories from the jsapi-components package: applies
every factory to the table argument and drops the null and undefined
results. -/
def useFilterConditionFactories {Table Cond : Type} (maybeTable : Option Table)
    (filterConditionFactories : List (Option Table → Option Cond)) : List Cond :=
  removeNullAndUndefined (filterConditionFactories.map (fun f => f maybeTable))

/-- Modelled from the spec: useContextOrThrow, from the repository's
react-hooks package (its source is not under src/), returns the context
value when one is available and throws an Error carrying the given
message otherwise. -/
def useContextOrThrow {α : Type} (contextValue : Option α) (message : String) :
    Except String α :=
  match contextValue with
  | some v => .ok v
  | none => .error message

/-- The error message passed by useClient. -/
def clientErrorMessage : String :=
  "No Client available in useClient. Was code wrapped in ClientBootstrap or ClientContext.Provider?"

/-- useClient: the shared client from ClientContext, or an Error. -/
def useClient {Client : Type} (contextValue : Option Client) :
    Except String Client :=
  useContextOrThrow contextValue clientErrorMessage

/-- A concrete console state used to instantiate the theorems below. -/
def sampleSt : ConsoleState :=
  { commandHistoryIndex := some 1
    history := ["alpha", "beta", "gamma"]
    modifiedCommands := [(some 0, some "edited0"), (some 2, none), (none, some "draft")]
    editorValue := "cur"
    bufferIndex := some 0
    loadingPromise := none
    tableOpen := false }

/-- A concrete state with the getTable fetch in flight and not cancelled. -/
def inflightSt : ConsoleState :=
  { commandHistoryIndex := none
    history := ["alpha"]
    modifiedCommands := []
    editorValue := ""
    bufferIndex := some 0
    loadingPromise := some (.tableFetch false)
    tableOpen := false }

/-- A concrete state with the getViewportData fetch in flight. -/
def dataSt : ConsoleState :=
  { commandHistoryIndex := none
    history := ["alpha"]
    modifiedCommands := []
    editorValue := ""
    bufferIndex := some 0
    loadingPromise := some (.dataFetch false)
    tableOpen := true }

/-- An ArrowUp keydown with no modifier held. -/
def arrowUpEv : KeyEvent :=
  { code := "ArrowUp", isEnterKeyCode := false, altKey := false,
    shiftKey := false, metaKey := false, ctrlKey := false }

/-- A view with the cursor on line 1 of 1 and no populated suggestions. -/
def line1View : EditorView :=
  { lineNumber := 1, lineCount := 1, suggestionMenuPopulated := false }

/-- Whether token occurs as a contiguous substring of s. -/
def containsToken (s token : String) : Bool :=
  s.toList.tails.any (fun t => token.toList.isPrefixOf t)

/-- loadMoreHistoryStart touches only loadingPromise. -/
lemma loadMoreHistoryStart_fields (st : ConsoleState) :
    (loadMoreHistoryStart st).commandHistoryIndex = st.commandHistoryIndex ∧
    (loadMoreHistoryStart st).editorValue = st.editorValue ∧
    (loadMoreHistoryStart st).history = st.history ∧
    (loadMoreHistoryStart st).modifiedCommands = st.modifiedCommands := by
  unfold loadMoreHistoryStart
  split <;> simp

/-- The first element the page filter keeps below its starting point differs
from the starting previous element. -/
lemma filterAdjacentDupsAux_head_ne (prev : String) (l : List String) :
    ∀ z, (filterAdjacentDupsAux prev l).head? = some z → z ≠ prev := by
  induction l generalizing prev with
  | nil => intro z h; simp [filterAdjacentDupsAux] at h
  | cons y ys ih =>
    intro z h
    by_cases hy : y = prev
    · subst hy
      simp only [filterAdjacentDupsAux, if_pos rfl] at h
      exact ih y z h
    · simp only [filterAdjacentDupsAux, if_neg hy, List.head?_cons,
        Option.some.injEq] at h
      subst h; exact hy

/-- Below a starting point, the filtered page has no adjacent duplicates. -/
lemma chain_filterAdjacentDupsAux (prev : String) (l : List String) :
    List.Chain' (· ≠ ·) (filterAdjacentDupsAux prev l) := by
  induction l generalizing prev with
  | nil => simp [filterAdjacentDupsAux]
  | cons y ys ih =>
    by_cases hy : y = prev
    · simpa [filterAdjacentDupsAux, hy] using ih y
    · simp only [filterAdjacentDupsAux, if_neg hy]
      rw [List.chain'_cons']
      refine ⟨fun z hz => ?_, ih y⟩
      exact (filterAdjacentDupsAux_head_ne y ys z (Option.mem_def.mp hz)).symm

/-- The filtered page has no adjacent duplicates. -/
lemma chain_filterAdjacentDups (l : List String) :
    List.Chain' (· ≠ ·) (filterAdjacentDups l) := by
  cases l with
  | nil => simp [filterAdjacentDups]
  | cons x xs =>
    show List.Chain' (· ≠ ·) (x :: filterAdjacentDupsAux x xs)
    rw [List.chain'_cons']
    refine ⟨fun z hz => ?_, chain_filterAdjacentDupsAux x xs⟩
    exact (filterAdjacentDupsAux_head_ne x xs z (Option.mem_def.mp hz)).symm

/-- Reversal preserves the absence of adjacent duplicates. -/
lemma chain_ne_reverse (l : List String) (h : List.Chain' (· ≠ ·) l) :
    List.Chain' (· ≠ ·) l.reverse := by
  rw [List.chain'_reverse]
  exact h.imp fun a b hab => hab.symm

/-- C1: with no modifier key held and no populated suggestion menu, ArrowUp
with the cursor on line 1 loads history offset commandHistoryIndex + 1
when the index is non-null and offset 0 when it is null, and ArrowDown
with the cursor on the last line loads offset commandHistoryIndex - 1
when the index is non-null and positive and otherwise the null sentinel
(the fresh, non-history command). -/
theorem onKeyDown_arrow_history_offsets (st : ConsoleState) (ev : KeyEvent)
    (view : EditorView)
    (halt : ev.altKey = false) (hshift : ev.shiftKey = false)
    (hmeta : ev.metaKey = false) (_hctrl : ev.ctrlKey = false)
    (hsugg : view.suggestionMenuPopulated = false) :
    (ev.code = "ArrowUp" → view.lineNumber = 1 →
      (onKeyDown st ev view).2 = KeyEffect.loadedCommand
        (some (match st.commandHistoryIndex with
               | some i => i + 1
               | none => 0))) ∧
    (ev.code = "ArrowDown" → view.lineNumber = view.lineCount →
      (onKeyDown st ev view).2 = KeyEffect.loadedCommand
        (match st.commandHistoryIndex with
         | some i => if 0 < i then some (i - 1) else none
         | none => none)) := by
  constructor
  · intro hcode hline
    cases hidx : st.commandHistoryIndex <;>
      simp [onKeyDown, halt, hshift, hmeta, hsugg, hcode, hline, hidx]
  · intro hcode hline
    have hne : ¬ (ev.code = "ArrowUp") := by rw [hcode]; decide
    cases hidx : st.commandHistoryIndex <;>
      simp [onKeyDown, halt, hshift, hmeta, hsugg, hcode, hline, hne, hidx]

/-- C1 witness: at the sample state, whose index is 1, ArrowUp on line 1
invokes loadCommand with offset 2. -/
theorem onKeyDown_arrow_history_offsets_witness :
    (onKeyDown sampleSt arrowUpEv line1View).2 = KeyEffect.loadedCommand (some 2) := by
  have h := (onKeyDown_arrow_history_offsets sampleSt arrowUpEv line1View
    rfl rfl rfl rfl rfl).1 rfl rfl
  simpa [sampleSt] using h

/-- C2: after processCommand runs (as it does on Enter submission of the
current editor value), the command-history index is null and the
modified-commands map is empty. -/
theorem processCommand_resets_index_and_modified (st : ConsoleState)
    (command : String) :
    (processCommand st command).commandHistoryIndex = none ∧
    (processCommand st command).modifiedCommands = [] := by
  simp only [processCommand]
  split <;> simp

/-- C3: loadCommand on an in-range non-null index sets the editor to the
stored in-progress edit for that index when one exists and otherwise to
the history entry at length - index - 1, and loadCommand on the null
sentinel restores the modified fresh command when one exists and
otherwise the empty string; in both cases commandHistoryIndex becomes
the given index. -/
theorem loadCommand_sets_editor_and_index (st : ConsoleState) (i : Nat)
    (h : i < st.history.length) :
    ((loadCommand st (some i)).1.commandHistoryIndex = some i ∧
      (loadCommand st (some i)).1.editorValue =
        (match mapGet st.modifiedCommands (some i) with
         | some (some s) => s
         | _ => st.history.getD (st.history.length - i - 1) "")) ∧
    ((loadCommand st none).1.commandHistoryIndex = none ∧
      (loadCommand st none).1.editorValue =
        (match mapGet st.modifiedCommands none with
         | some (some s) => s
         | _ => "")) := by
  have h' : ¬ st.history.length ≤ i := not_le.mpr h
  constructor
  · simp only [loadCommand, if_neg h']
    split
    · constructor
      · rw [(loadMoreHistoryStart_fields _).1]
      · rw [(loadMoreHistoryStart_fields _).2.1]
    · exact ⟨rfl, rfl⟩
  · exact ⟨rfl, rfl⟩

/-- C3 witness: at the sample state, index 0 has a stored edit, which the
load puts in the editor. -/
theorem loadCommand_sets_editor_and_index_witness :
    (0 : Nat) < sampleSt.history.length ∧
    (loadCommand sampleSt (some 0)).1.commandHistoryIndex = some 0 ∧
    (loadCommand sampleSt (some 0)).1.editorValue = "edited0" := by
  refine ⟨by decide,
    ((loadCommand_sets_editor_and_index sampleSt 0 (by decide)).1).1, ?_⟩
  have h := ((loadCommand_sets_editor_and_index sampleSt 0 (by decide)).1).2
  rw [h]; decide

/-- C4: for an accepted non-null index, loadCommand invokes the
loadMoreHistory backfill exactly when the index exceeds
history.length - BUFFER_SIZE in integer arithmetic. -/
theorem loadCommand_triggers_backfill_iff (st : ConsoleState) (i : Nat)
    (h : i < st.history.length) :
    ((loadCommand st (some i)).2 = true ↔
      (st.history.length : Int) - (BUFFER_SIZE : Int) < (i : Int)) := by
  have h' : ¬ st.history.length ≤ i := not_le.mpr h
  simp only [loadCommand, if_neg h']
  split
  · next hcond => simpa using hcond
  · next hcond => simpa using hcond

/-- C4 witness: at the sample state with three history entries, loading
index 0 triggers the backfill since 0 exceeds 3 - 100. -/
theorem loadCommand_triggers_backfill_iff_witness :
    ((loadCommand sampleSt (some 0)).2 = true ↔
      ((sampleSt.history.length : Int) - (BUFFER_SIZE : Int) < ((0 : Nat) : Int))) :=
  loadCommand_triggers_backfill_iff sampleSt 0 (by decide)

/-- C5 counterexample: with a getTable fetch in flight and not cancelled, a
superseding loadMoreHistory call is a no-op; it does not cancel (abandon)
the in-flight fetch, contradicting the claim that in-flight fetches are
abandoned on a superseding fetch. -/
theorem superseding_call_does_not_cancel_cex :
    loadMoreHistoryStart inflightSt = inflightSt ∧
    inflightSt.loadingPromise = some (.tableFetch false) ∧
    (loadMoreHistoryStart inflightSt).loadingPromise =
      some (.tableFetch false) ∧
    promiseCancelled (.tableFetch false) = false := by
  refine ⟨?_, rfl, ?_, rfl⟩ <;> decide

/-- C5 amended: unmount cancels whatever fetch is in flight; a superseding
loadMoreHistory call while a fetch is in flight is a no-op (so the first
requested page wins, not the last); and a cancelled fetch, when it
settles, closes the command-history table handle and applies no data. -/
theorem cancellation_on_unmount (st : ConsoleState) (items : List String)
    (tableSize : Nat) :
    (∀ p, (componentWillUnmount st).loadingPromise = some p →
      promiseCancelled p = true) ∧
    (st.loadingPromise ≠ none → loadMoreHistoryStart st = st) ∧
    (st.loadingPromise = some (.tableFetch true) →
      (resolveTable st).tableOpen = false ∧ (resolveTable st).history = st.history ∧
      (resolveTable st).loadingPromise = none) ∧
    (st.loadingPromise = some (.dataFetch true) →
      (resolveData st items tableSize).tableOpen = false ∧
      (resolveData st items tableSize).history = st.history ∧
      (resolveData st items tableSize).loadingPromise = none) := by
  refine ⟨?_, ?_, ?_, ?_⟩
  · intro p hp
    cases hlp : st.loadingPromise with
    | none => simp [componentWillUnmount, hlp] at hp
    | some q =>
      cases q <;> simp [componentWillUnmount, hlp] at hp <;>
        simp [← hp, promiseCancelled]
  · intro hne
    unfold loadMoreHistoryStart
    rw [if_pos (Or.inl hne)]
  · intro h
    simp [resolveTable, h]
  · intro h
    simp [resolveData, h]

/-- C5 witness: at the concrete in-flight state, the superseding call
changes nothing. -/
theorem cancellation_on_unmount_witness :
    loadMoreHistoryStart inflightSt = inflightSt :=
  (cancellation_on_unmount inflightSt [] 0).2.1 (by decide)

/-- C6: the catch block of loadMoreHistory resets loadingPromise to
undefined in both branches, changes nothing else, logs the error exactly
when it is not a cancellation, and, being total, never rethrows to its
caller. -/
theorem loadMoreHistoryCatch_swallows (st : ConsoleState) (isCanceled : Bool) :
    (loadMoreHistoryCatch st isCanceled).1 = { st with loadingPromise := none } ∧
    ((loadMoreHistoryCatch st isCanceled).2 = true ↔ isCanceled = false) := by
  unfold loadMoreHistoryCatch
  cases isCanceled <;> simp

/-- C7: useFilterConditionFactories returns exactly the non-null,
non-undefined results of applying each factory to the table argument, in
the order the factories were given: it equals filterMap, satisfies the
cons law that keeps a some-result in front and drops a none-result, and
returns nothing for no factories. -/
theorem useFilterConditionFactories_in_order {Table Cond : Type}
    (t : Option Table) (f : Option Table → Option Cond)
    (fs : List (Option Table → Option Cond)) :
    useFilterConditionFactories t fs = fs.filterMap (fun g => g t) ∧
    useFilterConditionFactories t (f :: fs) =
      (match f t with
       | some c => c :: useFilterConditionFactories t fs
       | none => useFilterConditionFactories t fs) ∧
    useFilterConditionFactories t ([] : List (Option Table → Option Cond)) = [] := by
  refine ⟨?_, ?_, rfl⟩
  · simp [useFilterConditionFactories, removeNullAndUndefined, List.filterMap_map]
  · cases h : f t <;>
      simp [useFilterConditionFactories, removeNullAndUndefined,
        List.filterMap_cons, h]

/-- C8: useClient returns the client supplied by ClientContext when one is
available, and otherwise an Error whose message directs the caller to
ClientBootstrap or ClientContext.Provider; it never returns a null or
undefined client. -/
theorem useClient_context_or_throw {Client : Type} (c : Client) :
    useClient (some c) = Except.ok c ∧
    useClient (none : Option Client) = Except.error clientErrorMessage ∧
    containsToken clientErrorMessage "ClientBootstrap" = true ∧
    containsToken clientErrorMessage "ClientContext.Provider" = true := by
  refine ⟨rfl, rfl, ?_, ?_⟩ <;> decide

/-- C9: loadCommand on a non-null index at or past history.length is a
no-op that starts no fetch, and the history lookup for accepted indices
stays in bounds. -/
theorem loadCommand_out_of_range_noop (st : ConsoleState) (i : Nat)
    (h : st.history.length ≤ i) :
    (loadCommand st (some i)).1 = st ∧ (loadCommand st (some i)).2 = false ∧
    ∀ j, j < st.history.length → st.history.length - j - 1 < st.history.length := by
  refine ⟨?_, ?_, fun j hj => by omega⟩ <;> simp [loadCommand, h]

/-- C9 witness: at the sample state with three entries, index 5 is
rejected without any change. -/
theorem loadCommand_out_of_range_noop_witness :
    (loadCommand sampleSt (some 5)).1 = sampleSt ∧
    (loadCommand sampleSt (some 5)).2 = false :=
  ⟨(loadCommand_out_of_range_noop sampleSt 5 (by decide)).1,
   (loadCommand_out_of_range_noop sampleSt 5 (by decide)).2.1⟩

/-- C10: for every state and command, processCommand leaves history
unchanged or appends the submitted command, and appends only a non-empty
command different from the current last entry; the page filter of
loadMoreHistory leaves no adjacent duplicates, and when the viewport
data arrives the de-duplicated, reversed page is prepended to history. -/
theorem history_no_dup_append_and_page_dedup (st : ConsoleState)
    (command : String) (items : List String) (tableSize : Nat) :
    ((processCommand st command).history = st.history ∨
      ((processCommand st command).history = st.history ++ [command] ∧
        command ≠ "" ∧ st.history.getLast? ≠ some command)) ∧
    List.Chain' (· ≠ ·) ((filterAdjacentDups items).reverse) ∧
    (st.loadingPromise = some (.dataFetch false) →
      (resolveData st items tableSize).history =
        (filterAdjacentDups items).reverse ++ st.history) := by
  refine ⟨?_, chain_ne_reverse _ (chain_filterAdjacentDups items), fun h => ?_⟩
  · simp only [processCommand]
    split
    · next hc =>
      right
      refine ⟨rfl, hc.1, ?_⟩
      rcases hc.2 with he | hne
      · simp [he]
      · exact fun hEq => hne hEq.symm
    · left; rfl
  · simp [resolveData, h]

/-- C10 witness: a concrete page with an adjacent duplicate is de-duplicated,
reversed and prepended. -/
theorem history_no_dup_append_and_page_dedup_witness :
    dataSt.loadingPromise = some (.dataFetch false) ∧
    (resolveData dataSt ["x", "x", "y"] 3).history =
      (filterAdjacentDups ["x", "x", "y"]).reverse ++ dataSt.history :=
  ⟨rfl, (history_no_dup_append_and_page_dedup dataSt "beta" ["x", "x", "y"] 3).2.2 rfl⟩

end WebClientUI
